import Mathlib

/-!
Verification development for the `file_manager_version` repository
(`src/cmd/main.go`).  The Go program is a content-addressed file store:
`storeFile` ingests a file, names the stored blob by the SHA-256 digest of
its bytes plus the original extension, records version history in a
`versions` table and an audit trail in an `actions` table;
`deduplicateFiles` sweeps a directory, deleting later files whose content
digest was already seen.

The development shallowly embeds the program: the filesystem is a map from
paths to byte lists plus a set of directories, the database is a pair of
append-only record lists, and the SHA-256 digest (Go `crypto/sha256` with
`fmt.Sprintf` hex rendering, used by `hashFile`) is implemented over `Nat`
with explicit reduction modulo 2^32.
-/

/-! ## The digest engine: SHA-256 (FIPS 180-4), hex-encoded

`hashFile` in the source opens the file, streams its bytes through
`sha256.New()` and renders the 32-byte sum with `fmt.Sprintf ("%x", ...)`,
i.e. lowercase hex.  We model the byte content as `List Nat` (each entry a
byte; values are reduced mod 256 where they enter a word). -/

/-- Truncate to a 32-bit word. -/
def w32 (x : Nat) : Nat := x % 4294967296

/-- Right rotation of a 32-bit word by `n` bits. -/
def rotr32 (n x : Nat) : Nat := w32 (Nat.lor (x >>> n) (x <<< (32 - n)))

/-- SHA-256 `Ch` function. -/
def shaCh (x y z : Nat) : Nat :=
  Nat.xor (Nat.land x y) (Nat.land (Nat.xor x 4294967295) z)

/-- SHA-256 `Maj` function. -/
def shaMaj (x y z : Nat) : Nat :=
  Nat.xor (Nat.xor (Nat.land x y) (Nat.land x z)) (Nat.land y z)

/-- SHA-256 big Sigma-0. -/
def bigSigma0 (x : Nat) : Nat :=
  Nat.xor (Nat.xor (rotr32 2 x) (rotr32 13 x)) (rotr32 22 x)

/-- SHA-256 big Sigma-1. -/
def bigSigma1 (x : Nat) : Nat :=
  Nat.xor (Nat.xor (rotr32 6 x) (rotr32 11 x)) (rotr32 25 x)

/-- SHA-256 small sigma-0. -/
def smallSigma0 (x : Nat) : Nat :=
  Nat.xor (Nat.xor (rotr32 7 x) (rotr32 18 x)) (x >>> 3)

/-- SHA-256 small sigma-1. -/
def smallSigma1 (x : Nat) : Nat :=
  Nat.xor (Nat.xor (rotr32 17 x) (rotr32 19 x)) (x >>> 10)

/-- The 64 SHA-256 round constants (FIPS 180-4 section 4.2.2, written in
decimal). -/
def K256 : List Nat :=
  [1116352408, 1899447441, 3049323471, 3921009573, 961987163, 1508970993,
   2453635748, 2870763221, 3624381080, 310598401, 607225278, 1426881987,
   1925078388, 2162078206, 2614888103, 3248222580, 3835390401, 4022224774,
   264347078, 604807628, 770255983, 1249150122, 1555081692, 1996064986,
   2554220882, 2821834349, 2952996808, 3210313671, 3336571891, 3584528711,
   113926993, 338241895, 666307205, 773529912, 1294757372, 1396182291,
   1695183700, 1986661051, 2177026350, 2456956037, 2730485921, 2820302411,
   3259730800, 3345764771, 3516065817, 3600352804, 4094571909, 275423344,
   430227734, 506948616, 659060556, 883997877, 958139571, 1322822218,
   1537002063, 1747873779, 1955562222, 2024104815, 2227730452, 2361852424,
   2428436474, 2756734187, 3204031479, 3329325298]

/-- The eight 32-bit working variables of the SHA-256 state. -/
structure H8 where
  a : Nat
  b : Nat
  c : Nat
  d : Nat
  e : Nat
  f : Nat
  g : Nat
  h : Nat
deriving DecidableEq, Repr

/-- SHA-256 initial hash value (FIPS 180-4 section 5.3.3, in decimal). -/
def initH : H8 :=
  ⟨1779033703, 3144134277, 1013904242, 2773480762,
   1359893119, 2600822924, 528734635, 1541459225⟩

/-- Assemble big-endian 32-bit words from a byte list (4 bytes per word). -/
def toWords : List Nat → List Nat
  | b0 :: b1 :: b2 :: b3 :: rest =>
      (b0 % 256 * 16777216 + b1 % 256 * 65536 + b2 % 256 * 256 + b3 % 256) :: toWords rest
  | _ => []

/-- Next word of the message schedule, computed from the current list of
words (whose length is the index being produced). -/
def schedNext (ws : List Nat) : Nat :=
  let i := ws.length
  w32 (smallSigma1 (ws.getD (i - 2) 0) + ws.getD (i - 7) 0 +
       smallSigma0 (ws.getD (i - 15) 0) + ws.getD (i - 16) 0)

/-- Extend the 16 block words by `n` further schedule words. -/
def extendSched (ws : List Nat) : Nat → List Nat
  | 0 => ws
  | n + 1 => extendSched (ws ++ [schedNext ws]) n

/-- One round of the SHA-256 compression function. -/
def compressStep (st : H8) (kw : Nat × Nat) : H8 :=
  let t1 := w32 (st.h + bigSigma1 st.e + shaCh st.e st.f st.g + kw.1 + kw.2)
  let t2 := w32 (bigSigma0 st.a + shaMaj st.a st.b st.c)
  ⟨w32 (t1 + t2), st.a, st.b, st.c, w32 (st.d + t1), st.e, st.f, st.g⟩

/-- Process one 64-byte block. -/
def compressBlock (h0 : H8) (block : List Nat) : H8 :=
  let ws := extendSched (toWords block) 48
  let s := (K256.zip ws).foldl compressStep h0
  ⟨w32 (h0.a + s.a), w32 (h0.b + s.b), w32 (h0.c + s.c), w32 (h0.d + s.d),
   w32 (h0.e + s.e), w32 (h0.f + s.f), w32 (h0.g + s.g), w32 (h0.h + s.h)⟩

/-- The 8-byte big-endian encoding of the message bit length. -/
def lenBytes (n : Nat) : List Nat :=
  [n >>> 56 % 256, n >>> 48 % 256, n >>> 40 % 256, n >>> 32 % 256,
   n >>> 24 % 256, n >>> 16 % 256, n >>> 8 % 256, n % 256]

/-- SHA-256 message padding: append `0x80`, zeros, and the 64-bit length,
reaching a multiple of 64 bytes. -/
def padMsg (msg : List Nat) : List Nat :=
  let len := msg.length
  let zeros := (64 - (len + 9) % 64) % 64
  msg.map (· % 256) ++ 128 :: List.replicate zeros 0 ++ lenBytes (8 * len)

/-- Split a byte list into 64-byte blocks.  The first argument is fuel
(call with the list length) so the recursion is structural. -/
def toBlocksF : Nat → List Nat → List (List Nat)
  | 0, _ => []
  | _, [] => []
  | fuel + 1, l => l.take 64 :: toBlocksF fuel (l.drop 64)

/-- The SHA-256 digest of a byte list, as eight 32-bit words. -/
def sha256Words (msg : List Nat) : H8 :=
  let padded := padMsg msg
  (toBlocksF padded.length padded).foldl compressBlock initH

/-- Lowercase hex digit, as produced by Go `fmt.Sprintf ("%x", ...)`. -/
def hexChar (n : Nat) : Char :=
  "0123456789abcdef".data.getD n '0'

/-- The eight lowercase hex characters of one 32-bit word. -/
def wordHex (w : Nat) : List Char :=
  [hexChar (w >>> 28 % 16), hexChar (w >>> 24 % 16), hexChar (w >>> 20 % 16),
   hexChar (w >>> 16 % 16), hexChar (w >>> 12 % 16), hexChar (w >>> 8 % 16),
   hexChar (w >>> 4 % 16), hexChar (w % 16)]

/-- The hex-encoded SHA-256 digest of a byte list: what Go's
`hashFile` returns for a file with those bytes. -/
def sha256hex (msg : List Nat) : String :=
  let s := sha256Words msg
  ⟨wordHex s.a ++ wordHex s.b ++ wordHex s.c ++ wordHex s.d ++
   wordHex s.e ++ wordHex s.f ++ wordHex s.g ++ wordHex s.h⟩

/-- Known-answer test: SHA-256 of the empty message. -/
theorem sha256hex_empty :
    sha256hex [] = "e3b0c44298fc1c149afbf4c8996fb92427ae41e4649b934ca495991b7852b855" := by
  rfl

/-- Known-answer test: SHA-256 of the ASCII bytes of "abc". -/
theorem sha256hex_abc :
    sha256hex [97, 98, 99] =
      "ba7816bf8f01cfea414140de5dae2223b00361a396177a9cb410ff61f20015ad" := by
  rfl

/-! ## Path helpers

`storeFile` computes `ext := filepath.Ext(filePath)` and
`filename := strings.TrimSuffix(filepath.Base(filePath), ext)`.
We embed these Go library functions over the character list of the path
(ASCII paths, `/` as separator, matching Go on Unix). -/

/-- Core of `filepath.Ext`: scan the reversed path; stop with no extension
at a path separator or the end, return `'.' :: acc` at the first dot.
`acc` accumulates the characters already passed over, in original order. -/
def goExtAux : List Char → List Char → List Char
  | _, [] => []
  | acc, c :: rest =>
      if c = '/' then []
      else if c = '.' then c :: acc
      else goExtAux (c :: acc) rest

/-- Go `filepath.Ext`: the suffix beginning at the final dot in the final
path element; empty if there is no dot. -/
def goExt (p : String) : String := ⟨goExtAux [] p.data.reverse⟩

/-- Go `filepath.Base`: the last element of the path, after stripping
trailing separators; `"."` for the empty path, `"/"` if the path is all
separators. -/
def goBase (p : String) : String :=
  if p.data = [] then "."
  else
    match p.data.reverse.dropWhile (fun c => decide (c = '/')) with
    | [] => "/"
    | r => ⟨(r.takeWhile (fun c => decide (c ≠ '/'))).reverse⟩

/-- Go `strings.HasSuffix` on character lists. -/
def goHasSuffix (s suffix : List Char) : Bool :=
  decide (suffix.length ≤ s.length) && (s.drop (s.length - suffix.length) == suffix)

/-- Go `strings.TrimSuffix`. -/
def trimSuffix (s suffix : String) : String :=
  if goHasSuffix s.data suffix.data then ⟨s.data.take (s.data.length - suffix.data.length)⟩
  else s

/-! ## Data model: filesystem and database

The filesystem is an association list from paths to byte contents (later
entries shadowed by earlier ones, insertion conses to the front) plus the
set of directories that exist.  The database mirrors the two SQLite
tables created by `initDB`: `actions` and `versions`, both append-only. -/

/-- A row of the `actions` table (`id` and the `CURRENT_TIMESTAMP` default
are omitted; rows are kept in insertion order). -/
structure ActionRecord where
  actionType : String
  filename : String
  storageID : String
deriving DecidableEq, Repr

/-- A row of the `versions` table (`id`/timestamp omitted; rows are kept
in insertion order). -/
structure VersionRecord where
  filename : String
  version : Nat
  hash : String
deriving DecidableEq, Repr

/-- The database: the two tables, each a list in insertion order. -/
structure DB where
  actions : List ActionRecord
  versions : List VersionRecord
deriving DecidableEq, Repr

/-- The empty database, as produced by `initDB` on a fresh store. -/
def emptyDB : DB := ⟨[], []⟩

/-- `logAction`: `INSERT INTO actions (action_type, filename, storage_id)`. -/
def logAction (db : DB) (actionType filename storageID : String) : DB :=
  { db with actions := db.actions ++ [⟨actionType, filename, storageID⟩] }

/-- The `versionNumber` values recorded for filename `f`, in insertion
order. -/
def seqOf (versions : List VersionRecord) (f : String) : List Nat :=
  (versions.filter (fun r => r.filename == f)).map (·.version)

/-- The `SELECT version FROM versions WHERE filename = ? ORDER BY version
DESC LIMIT 1` of `logVersion`: the greatest version recorded for `f`, with
`sql.ErrNoRows` mapped to 0. -/
def lastVersion (versions : List VersionRecord) (f : String) : Nat :=
  (seqOf versions f).foldl max 0

/-- The read half of `logVersion`: its `SELECT` statement. -/
def logVersionRead (db : DB) (f : String) : Nat := lastVersion db.versions f

/-- The write half of `logVersion`: its `INSERT` statement, given the
previously read last version.  In the source the two halves are two
separate database statements with no enclosing transaction, so concurrent
calls may interleave between them. -/
def logVersionInsert (db : DB) (f h : String) (lastV : Nat) : DB :=
  { db with versions := db.versions ++ [⟨f, lastV + 1, h⟩] }

/-- `logVersion`: read the last version for `f`, then insert `lastV + 1`. -/
def logVersion (db : DB) (f h : String) : DB :=
  logVersionInsert db f h (logVersionRead db f)

/-- The filesystem: regular files as an association list (front entry
wins) and the set of existing directories. -/
structure FS where
  files : List (String × List Nat)
  dirs : List String
deriving DecidableEq, Repr

/-- `os.Open` / `os.Stat` on a file path: the content if present. -/
def FS.lookup (fs : FS) (p : String) : Option (List Nat) :=
  (fs.files.find? (fun e => e.1 == p)).map (·.2)

/-- Create or overwrite the file at `p` with content `c`. -/
def FS.insert (fs : FS) (p : String) (c : List Nat) : FS :=
  { fs with files := (p, c) :: fs.files }

/-- Combined mutable state of a run: filesystem plus database. -/
structure St where
  fs : FS
  db : DB
deriving DecidableEq, Repr

/-- The `storageDir` constant of the source. -/
def storageDir : String := "storage"

/-- Injected I/O failures for one `storeFile` call, modelling OS errors
that are not a function of the filesystem state: a read failure while
hashing, a failure of `os.Create`, and a failure of `io.Copy`. -/
structure IOOracle where
  readFailsOnHash : Bool
  createFails : Bool
  copyFails : Bool
deriving DecidableEq, Repr

/-- The oracle of a run where no OS-level fault occurs. -/
def noFail : IOOracle := ⟨false, false, false⟩

/-- `hashFile`: open the file, stream it through SHA-256, render in hex.
Fails if the file cannot be opened, or (per the oracle) if the read while
hashing fails. -/
def hashFile (o : IOOracle) (fs : FS) (p : String) : Except String String :=
  match fs.lookup p with
  | none => .error "failed to open file"
  | some b => if o.readFailsOnHash then .error "failed to hash file" else .ok (sha256hex b)

/-- The first block of `storeFile`: `os.Stat(storageDir)` and, when the
directory does not exist, `os.Mkdir(storageDir, ...)`.  Runs before the
source file is opened. -/
def ensureStorageDir (s : St) : St :=
  if s.fs.dirs.contains storageDir then s
  else { s with fs := { s.fs with dirs := storageDir :: s.fs.dirs } }

/-- `storeFile`: create the storage root if absent, open and hash the
source, derive the storage key, then either log a duplicate or copy the
bytes into a fresh blob and append the `store` action and the version row.
Returns Go's `(string, error)` pair as `Except` together with the new
state. -/
def storeFile (o : IOOracle) (filePath : String) (s0 : St) : Except String String × St :=
  let s := ensureStorageDir s0
  match s.fs.lookup filePath with
  | none => (.error "failed to open source file", s)
  | some content =>
    match hashFile o s.fs filePath with
    | .error _ => (.error "failed to hash file", s)
    | .ok hash =>
      let ext := goExt filePath
      let filename := trimSuffix (goBase filePath) ext
      let hashedFilename := hash ++ ext
      let storagePath := storageDir ++ "/" ++ hashedFilename
      if (s.fs.lookup storagePath).isSome then
        (.ok hashedFilename,
         { s with db := logAction s.db "store_duplicate" (filename ++ ext) hashedFilename })
      else if o.createFails then
        (.error "failed to create destination file", s)
      else
        let sc := { s with fs := s.fs.insert storagePath [] }
        if o.copyFails then
          (.error "failed to copy file", sc)
        else
          let sd := { sc with fs := sc.fs.insert storagePath content }
          let db1 := logAction sd.db "store" (filename ++ ext) hashedFilename
          let db2 := logVersion db1 (filename ++ ext) hash
          (.ok hashedFilename, { sd with db := db2 })

/-! ## The duplicate sweep

`deduplicateFiles` walks a directory (one goroutine; `filepath.Walk`
visits entries sequentially in lexical order), hashes each regular file,
and consults the shared `hashes` map under a mutex: a repeat digest gets
the file deleted and a `deduplicate` action logged, a fresh digest is
recorded with its path.  Any callback error aborts the walk and is sent
into the buffered error channel, after which the goroutine blocks sending
on the done channel; the caller then selects between the two channels, so
a buffered error can lose the select to the now-ready done case.  We
model the walk as the list of regular files in walk order and the select
by an explicit choice parameter. -/

/-- Injected per-path faults for one sweep: a hashing failure, a failed
`os.Remove`, and a failed `logAction` insert. -/
structure SweepOracle where
  hashErr : String → Option String
  removeErr : String → Option String
  logErr : String → Option String

/-- The sweep oracle of a run where no per-file fault occurs. -/
def noSweepErr : SweepOracle := ⟨fun _ => none, fun _ => none, fun _ => none⟩

/-- Go map lookup in the sweep's `hashes` map (digest to first path). -/
def lookupIdx (idx : List (String × String)) (h : String) : Option String :=
  (idx.find? (fun e => e.1 == h)).map (·.2)

/-- Result of a sweep: the returned error (if any), the files remaining
on disk in walk order, the final digest index, and the database. -/
structure SweepRes where
  res : Except String Unit
  surv : List (String × List Nat)
  idx : List (String × String)
  db : DB

/-- The body of `deduplicateFiles`: fold the walk callback over the files
in walk order.  A duplicate digest deletes the file and logs the action; a
callback error aborts the remaining walk, leaving later files untouched
and earlier deletions in place. -/
def dedupGo (o : SweepOracle) (idx : List (String × String)) (db : DB) :
    List (String × List Nat) → SweepRes
  | [] => ⟨.ok (), [], idx, db⟩
  | (p, c) :: rest =>
    match o.hashErr p with
    | some e => ⟨.error e, (p, c) :: rest, idx, db⟩
    | none =>
      let h := sha256hex c
      match lookupIdx idx h with
      | some _ =>
        match o.removeErr p with
        | some e => ⟨.error e, (p, c) :: rest, idx, db⟩
        | none =>
          match o.logErr p with
          | some e => ⟨.error e, rest, idx, db⟩
          | none => dedupGo o idx (logAction db "deduplicate" p "") rest
      | none =>
        let r := dedupGo o ((h, p) :: idx) db rest
        ⟨r.res, (p, c) :: r.surv, r.idx, r.db⟩

/-- The `select` at the end of `deduplicateFiles`, racing the buffered
error channel against the done channel.  On a successful walk only `done`
is ready (the error channel was never written), so the caller returns
success.  On a failed walk the goroutine first buffers the error in
`errCh` (capacity 1) and then blocks sending on `done`; in the
interleaving where the caller's `select` runs after both sends are
pending, BOTH cases are ready and Go picks one of them at random —
`pickDone = true` models taking the `done` case, which returns nil and
silently drops the walk's error. -/
def selectReturn (pickDone : Bool) (walk : Except String Unit) : Except String Unit :=
  match walk with
  | .ok _ => .ok ()
  | .error e => if pickDone then .ok () else .error e

/-- `deduplicateFiles`: fresh `hashes` map, the walk in its goroutine,
then the `errCh`/`done` select.  `o` injects the per-file faults of one
run; `pickDone` resolves the select when both channels are ready.  The
deletions, the digest index and the log entries are those of the walk
regardless of which case the select takes — only the returned error can
be dropped. -/
def deduplicateFiles (o : SweepOracle) (pickDone : Bool)
    (entries : List (String × List Nat)) (db : DB) : SweepRes :=
  let r := dedupGo o [] db entries
  ⟨selectReturn pickDone r.res, r.surv, r.idx, r.db⟩

/-! ## Lemmas about the path helpers -/

/-- Trimming the empty suffix is the identity, as in Go. -/
theorem trimSuffix_empty (s : String) : trimSuffix s "" = s := by
  unfold trimSuffix goHasSuffix
  simp [show ("" : String).data = [] from rfl, List.drop_length, List.take_length]
  rw [show s.length = s.data.length from rfl, List.take_length]

/-- A list is a `goHasSuffix`-suffix of anything it ends. -/
theorem goHasSuffix_append (t e : List Char) : goHasSuffix (t ++ e) e = true := by
  unfold goHasSuffix
  have h2 : (t ++ e).drop ((t ++ e).length - e.length) = e := by
    apply List.drop_left'
    simp only [List.length_append]
    omega
  simp [h2]

/-- Go's `TrimSuffix` followed by re-appending the suffix restores the
original character list. -/
theorem trimSuffix_append_cancel (t e : List Char) :
    trimSuffix ⟨t ++ e⟩ ⟨e⟩ ++ (⟨e⟩ : String) = ⟨t ++ e⟩ := by
  have h3 : (t ++ e).take ((t ++ e).length - e.length) = t := by
    apply List.take_left'
    simp only [List.length_append]
    omega
  unfold trimSuffix
  simp only [show (⟨t ++ e⟩ : String).data = t ++ e from rfl,
    show (⟨e⟩ : String).data = e from rfl, goHasSuffix_append, if_true, h3]
  apply String.ext
  simp

/-- Characterization of `goExtAux`: it either finds no extension, or the
reversed input splits at its first dot, with no separator or dot before
it, and the result is that dot followed by the scanned prefix restored to
original order (on top of the accumulator). -/
theorem goExtAux_spec (rev : List Char) : ∀ acc : List Char,
    goExtAux acc rev = [] ∨
    ∃ pre rest, rev = pre ++ '.' :: rest ∧ (∀ x ∈ pre, x ≠ '/' ∧ x ≠ '.') ∧
      goExtAux acc rev = '.' :: (pre.reverse ++ acc) := by
  induction rev with
  | nil => intro acc; left; rfl
  | cons c rest ih =>
    intro acc
    by_cases hc : c = '/'
    · left; simp [goExtAux, hc]
    · by_cases hd : c = '.'
      · right
        exact ⟨[], rest, by simp [hd], by simp, by simp [goExtAux, hc, hd]⟩
      · rcases ih (c :: acc) with h | ⟨pre, r2, hrev, hmem, hres⟩
        · left; simp [goExtAux, hc, hd, h]
        · right
          refine ⟨c :: pre, r2, by simp [hrev], ?_, ?_⟩
          · intro x hx
            rcases List.mem_cons.mp hx with hx | hx
            · exact hx ▸ ⟨hc, hd⟩
            · exact hmem x hx
          · simp [goExtAux, hc, hd, hres]

/-- The `filename + ext` recombination performed by `storeFile` when it
logs records: trimming the extension off the base name and appending it
back yields exactly the base name. -/
theorem trimSuffix_base_ext (p : String) :
    trimSuffix (goBase p) (goExt p) ++ goExt p = goBase p := by
  rcases goExtAux_spec p.data.reverse [] with h | ⟨pre, rest, hrev, hmem, hres⟩
  · have hext : goExt p = "" := by
      simp [goExt, h]
    rw [hext, trimSuffix_empty]
    apply String.ext
    simp
  · have hext : goExt p = ⟨'.' :: pre.reverse⟩ := by
      unfold goExt
      rw [hres]
      simp
    have hpdata : p.data ≠ [] := by
      intro hnil
      rw [hnil] at hrev
      simp at hrev
    have hhead : p.data.reverse.dropWhile (fun c => decide (c = '/')) = p.data.reverse := by
      rw [hrev]
      cases pre with
      | nil => simp
      | cons a pre' =>
        have ha : a ≠ '/' := (hmem a (by simp)).1
        simp [List.dropWhile_cons, ha]
    have hbase : goBase p =
        ⟨(p.data.reverse.takeWhile (fun c => decide (c ≠ '/'))).reverse⟩ := by
      unfold goBase
      rw [if_neg hpdata, hhead]
      rcases hp : p.data.reverse with _ | ⟨a, l⟩
      · rw [hp] at hrev
        simp at hrev
      · rfl
    have htake : p.data.reverse.takeWhile (fun c => decide (c ≠ '/')) =
        pre ++ '.' :: rest.takeWhile (fun c => decide (c ≠ '/')) := by
      rw [hrev, List.takeWhile_append_of_pos (fun a ha => by simp [(hmem a ha).1]),
        List.takeWhile_cons_of_pos (by simp)]
    have hbase2 : goBase p =
        ⟨(rest.takeWhile (fun c => decide (c ≠ '/'))).reverse ++ '.' :: pre.reverse⟩ := by
      rw [hbase, htake]
      apply String.ext
      simp
    rw [hbase2, hext]
    exact trimSuffix_append_cancel _ _

/-! ## Lemmas about the state helpers -/

theorem ensure_files (s : St) : (ensureStorageDir s).fs.files = s.fs.files := by
  unfold ensureStorageDir; split <;> rfl

theorem ensure_db (s : St) : (ensureStorageDir s).db = s.db := by
  unfold ensureStorageDir; split <;> rfl

theorem ensure_lookup (s : St) (p : String) :
    (ensureStorageDir s).fs.lookup p = s.fs.lookup p := by
  unfold FS.lookup; rw [ensure_files]

theorem ensure_contains (s : St) :
    (ensureStorageDir s).fs.dirs.contains storageDir = true := by
  unfold ensureStorageDir
  split
  · assumption
  · simp

theorem ensure_of_contains (s : St) (h : s.fs.dirs.contains storageDir = true) :
    ensureStorageDir s = s := by
  unfold ensureStorageDir
  rw [if_pos h]

theorem lookup_insert_self (fs : FS) (p : String) (c : List Nat) :
    (fs.insert p c).lookup p = some c := by
  simp [FS.insert, FS.lookup]

theorem lookup_insert_ne (fs : FS) {p q : String} (c : List Nat) (h : q ≠ p) :
    (fs.insert p c).lookup q = fs.lookup q := by
  simp [FS.insert, FS.lookup, List.find?_cons_of_neg, Ne.symm h]

/-! ## Characterization of the `storeFile` branches -/

/-- When the source file cannot be opened, `storeFile` fails having only
(possibly) created the storage root. -/
theorem storeFile_open_fail (o : IOOracle) (p : String) (s : St)
    (h1 : s.fs.lookup p = none) :
    storeFile o p s = (.error "failed to open source file", ensureStorageDir s) := by
  simp only [storeFile, ensure_lookup, h1]

/-- When the read during hashing fails, `storeFile` fails having only
(possibly) created the storage root. -/
theorem storeFile_hash_fail (o : IOOracle) (p : String) (s : St) (content : List Nat)
    (h1 : s.fs.lookup p = some content) (hh : o.readFailsOnHash = true) :
    storeFile o p s = (.error "failed to hash file", ensureStorageDir s) := by
  simp only [storeFile, hashFile, ensure_lookup, h1, hh, if_true]

/-- The duplicate branch: a blob already exists under the derived storage
key, so `storeFile` only appends a `store_duplicate` action (keyed by the
base filename) and returns the key. -/
theorem storeFile_dup (o : IOOracle) (p : String) (s : St) (content blob : List Nat)
    (h1 : s.fs.lookup p = some content) (hh : o.readFailsOnHash = false)
    (h2 : s.fs.lookup (storageDir ++ "/" ++ (sha256hex content ++ goExt p)) = some blob) :
    storeFile o p s = (.ok (sha256hex content ++ goExt p),
      { ensureStorageDir s with
          db := logAction s.db "store_duplicate" (goBase p) (sha256hex content ++ goExt p) }) := by
  simp only [storeFile, hashFile, ensure_lookup, h1, h2, hh, Bool.false_eq_true, if_false,
    Option.isSome_some, if_true]
  simp [ensure_db, trimSuffix_base_ext]

/-- The create-failure branch: the destination blob cannot be created, so
`storeFile` fails with nothing written and nothing logged. -/
theorem storeFile_create_fail (o : IOOracle) (p : String) (s : St) (content : List Nat)
    (h1 : s.fs.lookup p = some content) (hh : o.readFailsOnHash = false)
    (h2 : s.fs.lookup (storageDir ++ "/" ++ (sha256hex content ++ goExt p)) = none)
    (hc : o.createFails = true) :
    storeFile o p s = (.error "failed to create destination file", ensureStorageDir s) := by
  simp only [storeFile, hashFile, ensure_lookup, h1, h2, hh, Bool.false_eq_true, if_false,
    Option.isSome_none, hc, if_true]

/-- The copy-failure branch: the destination blob was created (as an empty
file) but the copy fails; `storeFile` returns the copy error with the
truncated blob still present and nothing logged. -/
theorem storeFile_copy_fail (o : IOOracle) (p : String) (s : St) (content : List Nat)
    (h1 : s.fs.lookup p = some content) (hh : o.readFailsOnHash = false)
    (h2 : s.fs.lookup (storageDir ++ "/" ++ (sha256hex content ++ goExt p)) = none)
    (hc : o.createFails = false) (hcp : o.copyFails = true) :
    storeFile o p s = (.error "failed to copy file",
      { fs := { files := (storageDir ++ "/" ++ (sha256hex content ++ goExt p), []) :: s.fs.files,
                dirs := (ensureStorageDir s).fs.dirs },
        db := s.db }) := by
  simp only [storeFile, hashFile, ensure_lookup, h1, h2, hh, hc, hcp, Bool.false_eq_true,
    if_false, Option.isSome_none, if_true]
  simp [FS.insert, ensure_files, ensure_db]

/-- The fresh-store branch: no blob exists under the key and no fault is
injected, so the bytes are copied into a new blob and both the `store`
action and the version row (keyed by the base filename) are appended. -/
theorem storeFile_fresh (o : IOOracle) (p : String) (s : St) (content : List Nat)
    (h1 : s.fs.lookup p = some content) (hh : o.readFailsOnHash = false)
    (h2 : s.fs.lookup (storageDir ++ "/" ++ (sha256hex content ++ goExt p)) = none)
    (hc : o.createFails = false) (hcp : o.copyFails = false) :
    storeFile o p s = (.ok (sha256hex content ++ goExt p),
      { fs := { files :=
                  (storageDir ++ "/" ++ (sha256hex content ++ goExt p), content) ::
                  (storageDir ++ "/" ++ (sha256hex content ++ goExt p), []) :: s.fs.files,
                dirs := (ensureStorageDir s).fs.dirs },
        db := logVersion (logAction s.db "store" (goBase p) (sha256hex content ++ goExt p))
                (goBase p) (sha256hex content) }) := by
  simp only [storeFile, hashFile, ensure_lookup, h1, h2, hh, hc, hcp, Bool.false_eq_true,
    if_false, Option.isSome_none, if_true]
  simp [FS.insert, ensure_files, ensure_db, trimSuffix_base_ext]

/-! ## The version ledger: sequential behaviour and the read-insert race -/

/-- A ledger is well-formed when, for every filename, the recorded version
numbers in insertion order are exactly `1, 2, ..., n` where `n` is the
number of rows for that filename. -/
def ledgerOK (vs : List VersionRecord) : Prop :=
  ∀ f, seqOf vs f = List.range' 1 (vs.countP (fun r => r.filename == f))

/-- Folding `max` over `1, ..., n` from `0` yields `n`. -/
theorem foldl_max_range' (n : Nat) : (List.range' 1 n).foldl max 0 = n := by
  induction n with
  | zero => rfl
  | succ n ih =>
    rw [List.range'_concat, List.foldl_append]
    simp only [List.foldl_cons, List.foldl_nil, ih]
    omega

/-- In a well-formed ledger the `SELECT ... ORDER BY version DESC LIMIT 1`
of `logVersion` returns the number of rows for the filename. -/
theorem lastVersion_of_ledgerOK {vs : List VersionRecord} (h : ledgerOK vs) (f : String) :
    lastVersion vs f = vs.countP (fun r => r.filename == f) := by
  unfold lastVersion
  rw [h f, foldl_max_range']

/-- Appending the row that `logVersion` builds preserves well-formedness. -/
theorem ledgerOK_append {vs : List VersionRecord} (h : ledgerOK vs) (f hsh : String) :
    ledgerOK (vs ++ [⟨f, lastVersion vs f + 1, hsh⟩]) := by
  intro g
  by_cases hfg : f = g
  · subst hfg
    simp only [seqOf, List.filter_append, List.map_append, List.countP_append]
    rw [show (List.filter (fun r => r.filename == f) [(⟨f, lastVersion vs f + 1, hsh⟩ : VersionRecord)])
          = [⟨f, lastVersion vs f + 1, hsh⟩] by simp,
        show (List.countP (fun r => r.filename == f) [(⟨f, lastVersion vs f + 1, hsh⟩ : VersionRecord)])
          = 1 by simp [List.countP_cons]]
    rw [lastVersion_of_ledgerOK h f]
    rw [List.range'_concat]
    have := h f
    unfold seqOf at this
    rw [this]
    simp
    omega
  · have hbeq : ((f : String) == g) = false := by
      simp [hfg]
    simp only [seqOf, List.filter_append, List.map_append, List.countP_append]
    rw [show (List.filter (fun r => r.filename == g) [(⟨f, lastVersion vs f + 1, hsh⟩ : VersionRecord)])
          = [] by simp [hbeq],
        show (List.countP (fun r => r.filename == g) [(⟨f, lastVersion vs f + 1, hsh⟩ : VersionRecord)])
          = 0 by simp [List.countP_cons, hbeq]]
    have := h g
    unfold seqOf at this
    rw [this]
    simp

/-- A sequence of (sequential) `logVersion` calls, as issued by repeated
stores, starting from a given database. -/
def runStoresFrom (db : DB) (ops : List (String × String)) : DB :=
  ops.foldl (fun d op => logVersion d op.1 op.2) db

/-- A sequence of sequential `logVersion` calls on the fresh database. -/
def runStores (ops : List (String × String)) : DB := runStoresFrom emptyDB ops

/-- Sequential `logVersion` calls preserve ledger well-formedness. -/
theorem runStoresFrom_ledgerOK (ops : List (String × String)) :
    ∀ db : DB, ledgerOK db.versions → ledgerOK (runStoresFrom db ops).versions := by
  induction ops with
  | nil => intro db h; exact h
  | cons op rest ih =>
    intro db h
    exact ih _ (ledgerOK_append h op.1 op.2)

/-- Each `logVersion` call appends exactly one row for its filename, so
the row count for `f` grows by the number of stores of `f`. -/
theorem runStoresFrom_count (ops : List (String × String)) :
    ∀ (db : DB) (f : String),
      (runStoresFrom db ops).versions.countP (fun r => r.filename == f)
        = db.versions.countP (fun r => r.filename == f)
          + ops.countP (fun op => op.1 == f) := by
  induction ops with
  | nil => intro db f; simp [runStoresFrom]
  | cons op rest ih =>
    intro db f
    have hstep : (logVersion db op.1 op.2).versions.countP (fun r => r.filename == f)
        = db.versions.countP (fun r => r.filename == f)
          + (if (op.1 == f) = true then 1 else 0) := by
      simp [logVersion, logVersionInsert, List.countP_append, List.countP_cons]
    rw [show runStoresFrom db (op :: rest) = runStoresFrom (logVersion db op.1 op.2) rest from rfl,
      ih, hstep, List.countP_cons]
    by_cases hb : (op.1 == f) = true
    all_goals simp [hb]
    all_goals omega

/-! ## Lemmas about the duplicate sweep -/

/-- The digest index lookup misses exactly when the digest is not among
the recorded keys. -/
theorem lookupIdx_eq_none {idx : List (String × String)} {h : String} :
    lookupIdx idx h = none ↔ h ∉ idx.map (·.1) := by
  unfold lookupIdx
  rw [Option.map_eq_none', List.find?_eq_none]
  constructor
  · intro hall hmem
    rcases List.mem_map.mp hmem with ⟨e, he, hkey⟩
    exact hall e he (by simp [hkey])
  · intro hnot e he
    simp only [beq_iff_eq]
    intro hkey
    exact hnot (List.mem_map.mpr ⟨e, he, hkey⟩)

/-! One-step unfolding lemmas for `dedupGo`, one per branch of the walk
callback. -/

theorem dedupGo_nil (o : SweepOracle) (idx : List (String × String)) (db : DB) :
    dedupGo o idx db [] = ⟨.ok (), [], idx, db⟩ := rfl

theorem deduplicateFiles_res (o : SweepOracle) (pick : Bool)
    (entries : List (String × List Nat)) (db : DB) :
    (deduplicateFiles o pick entries db).res
      = selectReturn pick (dedupGo o [] db entries).res := rfl

theorem deduplicateFiles_surv (o : SweepOracle) (pick : Bool)
    (entries : List (String × List Nat)) (db : DB) :
    (deduplicateFiles o pick entries db).surv = (dedupGo o [] db entries).surv := rfl

theorem deduplicateFiles_db (o : SweepOracle) (pick : Bool)
    (entries : List (String × List Nat)) (db : DB) :
    (deduplicateFiles o pick entries db).db = (dedupGo o [] db entries).db := rfl

theorem dedupGo_cons_hashErr {o : SweepOracle} {p : String} {e : String}
    (idx : List (String × String)) (db : DB) (c : List Nat)
    (rest : List (String × List Nat)) (hhe : o.hashErr p = some e) :
    dedupGo o idx db ((p, c) :: rest) = ⟨.error e, (p, c) :: rest, idx, db⟩ := by
  simp only [dedupGo, hhe]

theorem dedupGo_cons_removeErr {o : SweepOracle} {p : String} {e : String} {q : String}
    {idx : List (String × String)} (db : DB) {c : List Nat}
    (rest : List (String × List Nat)) (hhe : o.hashErr p = none)
    (hidx : lookupIdx idx (sha256hex c) = some q) (hre : o.removeErr p = some e) :
    dedupGo o idx db ((p, c) :: rest) = ⟨.error e, (p, c) :: rest, idx, db⟩ := by
  simp only [dedupGo, hhe, hidx, hre]

theorem dedupGo_cons_logErr {o : SweepOracle} {p : String} {e : String} {q : String}
    {idx : List (String × String)} (db : DB) {c : List Nat}
    (rest : List (String × List Nat)) (hhe : o.hashErr p = none)
    (hidx : lookupIdx idx (sha256hex c) = some q) (hre : o.removeErr p = none)
    (hle : o.logErr p = some e) :
    dedupGo o idx db ((p, c) :: rest) = ⟨.error e, rest, idx, db⟩ := by
  simp only [dedupGo, hhe, hidx, hre, hle]

theorem dedupGo_cons_dup {o : SweepOracle} {p : String} {q : String}
    {idx : List (String × String)} (db : DB) {c : List Nat}
    (rest : List (String × List Nat)) (hhe : o.hashErr p = none)
    (hidx : lookupIdx idx (sha256hex c) = some q) (hre : o.removeErr p = none)
    (hle : o.logErr p = none) :
    dedupGo o idx db ((p, c) :: rest) = dedupGo o idx (logAction db "deduplicate" p "") rest := by
  simp only [dedupGo, hhe, hidx, hre, hle]

theorem dedupGo_cons_fresh {o : SweepOracle} {p : String}
    {idx : List (String × String)} (db : DB) {c : List Nat}
    (rest : List (String × List Nat)) (hhe : o.hashErr p = none)
    (hidx : lookupIdx idx (sha256hex c) = none) :
    dedupGo o idx db ((p, c) :: rest) =
      ⟨(dedupGo o ((sha256hex c, p) :: idx) db rest).res,
       (p, c) :: (dedupGo o ((sha256hex c, p) :: idx) db rest).surv,
       (dedupGo o ((sha256hex c, p) :: idx) db rest).idx,
       (dedupGo o ((sha256hex c, p) :: idx) db rest).db⟩ := by
  simp only [dedupGo, hhe, hidx]

/-- With no injected faults, the sweep always reports success. -/
theorem dedupGo_noSweepErr_ok (entries : List (String × List Nat)) :
    ∀ (idx : List (String × String)) (db : DB),
      (dedupGo noSweepErr idx db entries).res = .ok () := by
  induction entries with
  | nil => intro idx db; rfl
  | cons e rest ih =>
    intro idx db
    rcases e with ⟨p, c⟩
    rcases hidx : lookupIdx idx (sha256hex c) with _ | q
    · rw [dedupGo_cons_fresh db rest rfl hidx]
      exact ih _ db
    · rw [dedupGo_cons_dup db rest rfl hidx rfl rfl]
      exact ih idx _

/-- Splitting a successful prefix off a sweep: the walk continues over the
tail from the prefix's final index and database, and the surviving files
concatenate. -/
theorem dedupGo_append_ok (o : SweepOracle) (l2 : List (String × List Nat)) :
    ∀ (l1 : List (String × List Nat)) (idx : List (String × String)) (db : DB),
      (dedupGo o idx db l1).res = .ok () →
      dedupGo o idx db (l1 ++ l2) =
        ⟨(dedupGo o (dedupGo o idx db l1).idx (dedupGo o idx db l1).db l2).res,
         (dedupGo o idx db l1).surv ++ (dedupGo o (dedupGo o idx db l1).idx (dedupGo o idx db l1).db l2).surv,
         (dedupGo o (dedupGo o idx db l1).idx (dedupGo o idx db l1).db l2).idx,
         (dedupGo o (dedupGo o idx db l1).idx (dedupGo o idx db l1).db l2).db⟩ := by
  intro l1
  induction l1 with
  | nil =>
    intro idx db _
    simp [dedupGo_nil]
  | cons hd rest ih =>
    intro idx db h
    rcases hd with ⟨p, c⟩
    rcases hhe : o.hashErr p with _ | e'
    · rcases hidx : lookupIdx idx (sha256hex c) with _ | q
      · rw [dedupGo_cons_fresh db rest hhe hidx] at h
        rw [show ((p, c) :: rest) ++ l2 = (p, c) :: (rest ++ l2) from rfl,
          dedupGo_cons_fresh db (rest ++ l2) hhe hidx,
          dedupGo_cons_fresh db rest hhe hidx, ih _ db h]
        simp
      · rcases hre : o.removeErr p with _ | e'
        · rcases hle : o.logErr p with _ | e'
          · rw [dedupGo_cons_dup db rest hhe hidx hre hle] at h
            rw [show ((p, c) :: rest) ++ l2 = (p, c) :: (rest ++ l2) from rfl,
              dedupGo_cons_dup db (rest ++ l2) hhe hidx hre hle,
              dedupGo_cons_dup db rest hhe hidx hre hle, ih _ _ h]
          · rw [dedupGo_cons_logErr db rest hhe hidx hre hle] at h
            cases h
        · rw [dedupGo_cons_removeErr db rest hhe hidx hre] at h
          cases h
    · rw [dedupGo_cons_hashErr idx db c rest hhe] at h
      cases h

/-- An error in the walk prefix aborts the whole sweep: the overall walk
returns that first error, the files after the failure point are untouched
(they stay on disk), and no further database writes happen; deletions
already performed in the prefix are not rolled back. -/
theorem dedupGo_append_err (o : SweepOracle) (l2 : List (String × List Nat)) :
    ∀ (l1 : List (String × List Nat)) (idx : List (String × String)) (db : DB) (e : String),
      (dedupGo o idx db l1).res = .error e →
      dedupGo o idx db (l1 ++ l2) =
        ⟨.error e, (dedupGo o idx db l1).surv ++ l2,
         (dedupGo o idx db l1).idx, (dedupGo o idx db l1).db⟩ := by
  intro l1
  induction l1 with
  | nil =>
    intro idx db e h
    cases h
  | cons hd rest ih =>
    intro idx db e h
    rcases hd with ⟨p, c⟩
    rcases hhe : o.hashErr p with _ | e'
    · rcases hidx : lookupIdx idx (sha256hex c) with _ | q
      · rw [dedupGo_cons_fresh db rest hhe hidx] at h
        rw [show ((p, c) :: rest) ++ l2 = (p, c) :: (rest ++ l2) from rfl,
          dedupGo_cons_fresh db (rest ++ l2) hhe hidx,
          dedupGo_cons_fresh db rest hhe hidx, ih _ db e h]
        simp
      · rcases hre : o.removeErr p with _ | e'
        · rcases hle : o.logErr p with _ | e'
          · rw [dedupGo_cons_dup db rest hhe hidx hre hle] at h
            rw [show ((p, c) :: rest) ++ l2 = (p, c) :: (rest ++ l2) from rfl,
              dedupGo_cons_dup db (rest ++ l2) hhe hidx hre hle,
              dedupGo_cons_dup db rest hhe hidx hre hle, ih _ _ e h]
          · rw [dedupGo_cons_logErr db rest hhe hidx hre hle] at h
            rw [show ((p, c) :: rest) ++ l2 = (p, c) :: (rest ++ l2) from rfl,
              dedupGo_cons_logErr db (rest ++ l2) hhe hidx hre hle,
              dedupGo_cons_logErr db rest hhe hidx hre hle]
            cases h
            rfl
        · rw [dedupGo_cons_removeErr db rest hhe hidx hre] at h
          rw [show ((p, c) :: rest) ++ l2 = (p, c) :: (rest ++ l2) from rfl,
            dedupGo_cons_removeErr db (rest ++ l2) hhe hidx hre,
            dedupGo_cons_removeErr db rest hhe hidx hre]
          cases h
          rfl
    · rw [dedupGo_cons_hashErr idx db c rest hhe] at h
      rw [show ((p, c) :: rest) ++ l2 = (p, c) :: (rest ++ l2) from rfl,
        dedupGo_cons_hashErr idx db c (rest ++ l2) hhe,
        dedupGo_cons_hashErr idx db c rest hhe]
      cases h
      rfl

/-- In a fault-free sweep, the surviving files have pairwise distinct
digests, and none of their digests was in the incoming index (otherwise
they would have been deleted). -/
theorem dedupGo_surv_distinct (entries : List (String × List Nat)) :
    ∀ (idx : List (String × String)) (db : DB),
      ((dedupGo noSweepErr idx db entries).surv.Pairwise
        (fun a b => sha256hex a.2 ≠ sha256hex b.2)) ∧
      (∀ x ∈ (dedupGo noSweepErr idx db entries).surv, sha256hex x.2 ∉ idx.map (·.1)) := by
  induction entries with
  | nil => intro idx db; simp [dedupGo_nil]
  | cons hd rest ih =>
    intro idx db
    rcases hd with ⟨p, c⟩
    rcases hidx : lookupIdx idx (sha256hex c) with _ | q
    · rw [dedupGo_cons_fresh db rest rfl hidx]
      rcases ih ((sha256hex c, p) :: idx) db with ⟨hpw, hfresh⟩
      constructor
      · refine List.pairwise_cons.mpr ⟨?_, hpw⟩
        intro x hx
        have := hfresh x hx
        simp only [List.map_cons, List.mem_cons] at this
        intro heq
        exact this (Or.inl heq.symm)
      · intro x hx
        rcases List.mem_cons.mp hx with hx | hx
        · subst hx
          exact lookupIdx_eq_none.mp hidx
        · have := hfresh x hx
          simp only [List.map_cons, List.mem_cons] at this
          intro hmem
          exact this (Or.inr hmem)
    · rw [dedupGo_cons_dup db rest rfl hidx rfl rfl]
      exact ih idx _

/-- A fault-free sweep over files whose digests are pairwise distinct and
absent from the incoming index deletes nothing and writes nothing. -/
theorem dedupGo_distinct_unchanged (entries : List (String × List Nat)) :
    ∀ (idx : List (String × String)) (db : DB),
      (entries.Pairwise (fun a b => sha256hex a.2 ≠ sha256hex b.2)) →
      (∀ x ∈ entries, sha256hex x.2 ∉ idx.map (·.1)) →
      (dedupGo noSweepErr idx db entries).surv = entries ∧
      (dedupGo noSweepErr idx db entries).db = db := by
  induction entries with
  | nil => intro idx db _ _; simp [dedupGo_nil]
  | cons hd rest ih =>
    intro idx db hpw hfresh
    rcases hd with ⟨p, c⟩
    have hidx : lookupIdx idx (sha256hex c) = none :=
      lookupIdx_eq_none.mpr (hfresh (p, c) (by simp))
    rw [dedupGo_cons_fresh db rest rfl hidx]
    rcases List.pairwise_cons.mp hpw with ⟨hhd, hpw'⟩
    have hfresh' : ∀ x ∈ rest, sha256hex x.2 ∉ ((sha256hex c, p) :: idx).map (·.1) := by
      intro x hx
      simp only [List.map_cons, List.mem_cons]
      rintro (heq | hmem)
      · exact hhd x hx heq.symm
      · exact hfresh x (List.mem_cons_of_mem _ hx) hmem
    rcases ih ((sha256hex c, p) :: idx) db hpw' hfresh' with ⟨hsurv, hdb⟩
    simp [hsurv, hdb]

/-! ## Shape of the digest output -/

theorem wordHex_length (w : Nat) : (wordHex w).length = 8 := rfl

/-- The rendered digest is 64 hex characters: 256 bits. -/
theorem sha256hex_length (b : List Nat) : (sha256hex b).length = 64 := by
  simp only [sha256hex, String.length_mk, List.length_append, wordHex_length]

/-- Every digit produced by `hexChar` lies in the lowercase hex alphabet. -/
theorem hexChar_mem (n : Nat) : hexChar n ∈ "0123456789abcdef".data := by
  unfold hexChar
  rcases h : "0123456789abcdef".data[n]? with _ | c
  · rw [List.getD_eq_getElem?_getD, h]
    decide
  · rw [List.getD_eq_getElem?_getD, h]
    exact List.getElem?_mem h

/-- Every character of a rendered digest is a lowercase hex digit. -/
theorem sha256hex_chars (b : List Nat) :
    ∀ ch ∈ (sha256hex b).data, ch ∈ "0123456789abcdef".data := by
  have hx : ∀ w : Nat, ∀ ch ∈ wordHex w, ch ∈ "0123456789abcdef".data := by
    intro w ch hch
    simp only [wordHex, List.mem_cons, List.not_mem_nil, or_false] at hch
    rcases hch with h | h | h | h | h | h | h | h <;> (subst h; exact hexChar_mem _)
  intro ch hch
  simp only [sha256hex, List.mem_append] at hch
  rcases hch with (((((((h | h) | h) | h) | h) | h) | h) | h) <;> exact hx _ _ h

/-! ## Concrete fixtures for witnesses and counterexamples -/

/-- A starting state with one source file `a.txt` holding byte `7`, an
empty database and no directories. -/
def st0 : St := ⟨⟨[("a.txt", [7])], []⟩, emptyDB⟩

/-- A starting state whose source file sits in a subdirectory. -/
def st1 : St := ⟨⟨[("dir/a.txt", [7])], []⟩, emptyDB⟩

/-- Oracle injecting a failure of `os.Create` on the destination blob. -/
def createFailOracle : IOOracle := ⟨false, true, false⟩

/-- Oracle injecting a failure of `io.Copy` into the destination blob. -/
def copyFailOracle : IOOracle := ⟨false, false, true⟩

/-- The database produced by the racy interleaving of two concurrent
`logVersion` calls for `a.txt`: both `SELECT`s run against the empty
ledger before either `INSERT`. -/
def raceDB : DB :=
  logVersionInsert
    (logVersionInsert emptyDB "a.txt" "d1" (logVersionRead emptyDB "a.txt"))
    "a.txt" "d2" (logVersionRead emptyDB "a.txt")

/-! ## Claim C1 -/

set_option maxRecDepth 100000 in
/-- Claim C1 counterexample: starting from `st0`, storing `a.txt` twice
leaves exactly one VersionRecord (version 1) in the ledger.  The claim
asserts the duplicate store still appends a VersionRecord, i.e. that the
version list would be `[1, 2]`; it is `[1]`: the duplicate branch of
`storeFile` returns before `logVersion` is called. -/
theorem store_duplicate_version_counterexample :
    ((storeFile noFail "a.txt" (storeFile noFail "a.txt" st0).2).2.db.versions.map
        (fun r => r.version) = [1]) ∧
    ¬ ((storeFile noFail "a.txt" (storeFile noFail "a.txt" st0).2).2.db.versions.map
        (fun r => r.version) = [1, 2]) := by
  exact ⟨by decide, by decide⟩

/-- Claim C1 (amended): a second store of content already in the store
returns the same storage key, creates no second physical blob, appends a
second ActionRecord (`store`, then `store_duplicate`) but appends NO
second VersionRecord: two stores of identical content leave exactly one
VersionRecord, version 1 relative to the starting ledger. -/
theorem store_same_content_twice (p : String) (content : List Nat) (s : St)
    (h1 : s.fs.lookup p = some content)
    (h2 : s.fs.lookup (storageDir ++ "/" ++ (sha256hex content ++ goExt p)) = none) :
    (storeFile noFail p s).1 = .ok (sha256hex content ++ goExt p) ∧
    (storeFile noFail p (storeFile noFail p s).2).1 = .ok (sha256hex content ++ goExt p) ∧
    (storeFile noFail p (storeFile noFail p s).2).2.fs = (storeFile noFail p s).2.fs ∧
    (storeFile noFail p s).2.db.versions =
      s.db.versions ++
        [⟨goBase p, lastVersion s.db.versions (goBase p) + 1, sha256hex content⟩] ∧
    (storeFile noFail p (storeFile noFail p s).2).2.db.versions
      = (storeFile noFail p s).2.db.versions ∧
    (storeFile noFail p (storeFile noFail p s).2).2.db.actions =
      s.db.actions ++
        [⟨"store", goBase p, sha256hex content ++ goExt p⟩,
         ⟨"store_duplicate", goBase p, sha256hex content ++ goExt p⟩] := by
  have hne : p ≠ storageDir ++ "/" ++ (sha256hex content ++ goExt p) := by
    intro he
    rw [← he, h1] at h2
    cases h2
  have hfresh := storeFile_fresh noFail p s content h1 rfl h2 rfl rfl
  have hl1 : ((storeFile noFail p s).2).fs.lookup p = some content := by
    rw [hfresh]
    show FS.lookup _ p = some content
    unfold FS.lookup
    rw [List.find?_cons_of_neg _ (by simp [Ne.symm hne]),
      List.find?_cons_of_neg _ (by simp [Ne.symm hne])]
    exact h1
  have hl2 : ((storeFile noFail p s).2).fs.lookup
      (storageDir ++ "/" ++ (sha256hex content ++ goExt p)) = some content := by
    rw [hfresh]
    show FS.lookup _ _ = some content
    unfold FS.lookup
    rw [List.find?_cons_of_pos _ (by simp)]
    rfl
  have hcont : ((storeFile noFail p s).2).fs.dirs.contains storageDir = true := by
    rw [hfresh]
    exact ensure_contains s
  have hdup := storeFile_dup noFail p ((storeFile noFail p s).2) content content hl1 rfl hl2
  rw [ensure_of_contains _ hcont] at hdup
  refine ⟨by rw [hfresh], by rw [hdup], by rw [hdup], ?_, ?_, ?_⟩
  · rw [hfresh]
    simp [logVersion, logVersionInsert, logVersionRead, logAction, lastVersion, seqOf]
  · rw [hdup]
    simp [logAction]
  · rw [hdup]
    simp only [logAction]
    rw [hfresh]
    simp [logVersion, logVersionInsert, logAction]

set_option maxRecDepth 100000 in
/-- Witness for the amended C1 at the concrete state `st0`. -/
theorem store_same_content_twice_witness :
    st0.fs.lookup "a.txt" = some [7] ∧
    st0.fs.lookup (storageDir ++ "/" ++ (sha256hex [7] ++ goExt "a.txt")) = none ∧
    (storeFile noFail "a.txt" (storeFile noFail "a.txt" st0).2).2.db.versions
      = (storeFile noFail "a.txt" st0).2.db.versions :=
  ⟨rfl, rfl, (store_same_content_twice "a.txt" [7] st0 rfl rfl).2.2.2.2.1⟩

/-! ## Claim C2 -/

/-- Claim C2 counterexample: with both `SELECT`s of two concurrent
`logVersion ("a.txt")` calls interleaved before either `INSERT` (the
unguarded read-then-insert of the source), the ledger records versions
`[1, 1]` — a repeat, not the claimed gap- and repeat-free `1, 2`. -/
theorem version_race_counterexample :
    seqOf raceDB.versions "a.txt" = [1, 1] ∧
    ¬ (seqOf raceDB.versions "a.txt" = List.range' 1 2) := by
  exact ⟨by decide, by decide⟩

/-- Claim C2 (amended): for SEQUENTIAL stores the version numbers recorded
for each filename are exactly `1, 2, 3, ...` with no gaps or repeats; but
because `logVersion` issues its `SELECT` and `INSERT` as two separate
statements, the interleaving in which two concurrent stores of `f` both
read before either inserts makes both compute the same next version,
appending two rows with the same number. -/
theorem version_sequence_sequential_and_race
    (ops : List (String × String)) (f : String) (db : DB) (d1 d2 : String) :
    seqOf (runStores ops).versions f = List.range' 1 (ops.countP (fun op => op.1 == f)) ∧
    (logVersionInsert (logVersionInsert db f d1 (logVersionRead db f)) f d2
        (logVersionRead db f)).versions
      = db.versions ++ [⟨f, logVersionRead db f + 1, d1⟩, ⟨f, logVersionRead db f + 1, d2⟩] := by
  constructor
  · have hled := runStoresFrom_ledgerOK ops emptyDB (fun g => rfl)
    have hcnt := runStoresFrom_count ops emptyDB f
    rw [show runStores ops = runStoresFrom emptyDB ops from rfl]
    rw [hled f, hcnt]
    simp [emptyDB]
  · simp [logVersionInsert]

/-! ## Claim C4 -/

set_option maxRecDepth 100000 in
/-- Claim C4 counterexample: with the copy failing, `storeFile` on `st0`
returns the write error but a truncated blob (empty bytes, content was
`[7]`) remains visible at the storage key. -/
theorem store_partial_blob_counterexample :
    (storeFile copyFailOracle "a.txt" st0).1 = .error "failed to copy file" ∧
    (storeFile copyFailOracle "a.txt" st0).2.fs.lookup
        (storageDir ++ "/" ++ (sha256hex [7] ++ goExt "a.txt")) = some [] ∧
    ([] : List Nat) ≠ [7] := by
  exact ⟨rfl, rfl, by decide⟩

/-- Claim C4 (amended): when creating the destination blob fails, the
store returns the write error with no blob and no records written; but
when the copy fails, the already-created (truncated, empty) blob REMAINS
visible at the storage key — only the database is untouched.  The claim's
"no partial blob remains visible" holds for create failures only. -/
theorem store_write_failure (o : IOOracle) (p : String) (s : St) (content : List Nat)
    (h1 : s.fs.lookup p = some content)
    (h2 : s.fs.lookup (storageDir ++ "/" ++ (sha256hex content ++ goExt p)) = none)
    (hh : o.readFailsOnHash = false) :
    (o.createFails = true →
      storeFile o p s = (.error "failed to create destination file", ensureStorageDir s)) ∧
    (o.createFails = false → o.copyFails = true →
      (storeFile o p s).1 = .error "failed to copy file" ∧
      (storeFile o p s).2.fs.lookup
          (storageDir ++ "/" ++ (sha256hex content ++ goExt p)) = some [] ∧
      (storeFile o p s).2.db = s.db) := by
  constructor
  · intro hc
    exact storeFile_create_fail o p s content h1 hh h2 hc
  · intro hc hcp
    rw [storeFile_copy_fail o p s content h1 hh h2 hc hcp]
    refine ⟨rfl, ?_, rfl⟩
    show FS.lookup _ _ = some []
    unfold FS.lookup
    rw [List.find?_cons_of_pos _ (by simp)]
    rfl

set_option maxRecDepth 100000 in
/-- Witness for the amended C4 at the concrete state `st0`, under both
write-fault oracles. -/
theorem store_write_failure_witness :
    st0.fs.lookup "a.txt" = some [7] ∧
    storeFile createFailOracle "a.txt" st0
      = (.error "failed to create destination file", ensureStorageDir st0) ∧
    (storeFile copyFailOracle "a.txt" st0).2.db = st0.db :=
  ⟨rfl, (store_write_failure createFailOracle "a.txt" st0 [7] rfl rfl rfl).1 rfl,
   ((store_write_failure copyFailOracle "a.txt" st0 [7] rfl rfl rfl).2 rfl rfl).2.2⟩

/-! ## Claim C3 -/

/-- Claim C3: the digest is a pure function of the byte content: for any
two paths holding the same bytes, `hashFile` returns the same digest, that
digest is exactly the hex rendering of SHA-256 of the bytes (independent
of filename, path, or any timestamp, none of which the function reads),
and it is a 256-bit value rendered as 64 lowercase hex characters. -/
theorem digest_pure_function_of_content (o : IOOracle) (fs : FS) (p1 p2 : String)
    (b : List Nat) (ho : o.readFailsOnHash = false)
    (h1 : fs.lookup p1 = some b) (h2 : fs.lookup p2 = some b) :
    hashFile o fs p1 = hashFile o fs p2 ∧
    hashFile o fs p1 = .ok (sha256hex b) ∧
    (sha256hex b).length = 64 ∧
    (∀ ch ∈ (sha256hex b).data, ch ∈ "0123456789abcdef".data) := by
  have e1 : hashFile o fs p1 = .ok (sha256hex b) := by
    simp [hashFile, h1, ho]
  have e2 : hashFile o fs p2 = .ok (sha256hex b) := by
    simp [hashFile, h2, ho]
  exact ⟨e1.trans e2.symm, e1, sha256hex_length b, sha256hex_chars b⟩

/-- A filesystem holding the same bytes under two different directories. -/
def wfs : FS := ⟨[("docs/a.bin", [1, 2]), ("backup/b.bin", [1, 2])], []⟩

set_option maxRecDepth 100000 in
/-- Witness for C3 at two concrete paths with equal content. -/
theorem digest_pure_function_of_content_witness :
    wfs.lookup "docs/a.bin" = some [1, 2] ∧
    wfs.lookup "backup/b.bin" = some [1, 2] ∧
    hashFile noFail wfs "docs/a.bin" = hashFile noFail wfs "backup/b.bin" ∧
    (sha256hex [1, 2]).length = 64 :=
  ⟨rfl, rfl,
   (digest_pure_function_of_content noFail wfs "docs/a.bin" "backup/b.bin" [1, 2]
      rfl rfl rfl).1,
   (digest_pure_function_of_content noFail wfs "docs/a.bin" "backup/b.bin" [1, 2]
      rfl rfl rfl).2.2.1⟩

/-! ## Claim C5 -/

/-- Claim C5: sweeping a directory holding exactly two regular files with
byte-identical content keeps exactly the first file in walk order (the one
whose digest entered the index first), deletes the second, and appends
exactly one `deduplicate` ActionRecord whose filename field is the removed
path. -/
theorem sweep_two_identical_files (pick : Bool) (p1 p2 : String) (b : List Nat) (db : DB) :
    deduplicateFiles noSweepErr pick [(p1, b), (p2, b)] db =
      ⟨.ok (), [(p1, b)], [(sha256hex b, p1)], logAction db "deduplicate" p2 ""⟩ := by
  have hidx2 : lookupIdx [(sha256hex b, p1)] (sha256hex b) = some p1 := by
    simp [lookupIdx]
  have hwalk : dedupGo noSweepErr [] db [(p1, b), (p2, b)] =
      ⟨.ok (), [(p1, b)], [(sha256hex b, p1)], logAction db "deduplicate" p2 ""⟩ := by
    rw [dedupGo_cons_fresh db [(p2, b)] (show noSweepErr.hashErr p1 = none from rfl)
        (show lookupIdx [] (sha256hex b) = none from rfl),
      dedupGo_cons_dup db [] (show noSweepErr.hashErr p2 = none from rfl) hidx2
        (show noSweepErr.removeErr p2 = none from rfl)
        (show noSweepErr.logErr p2 = none from rfl),
      dedupGo_nil]
  simp only [deduplicateFiles]
  rw [hwalk]
  rfl

/-! ## Claim C6 -/

/-- Claim C6: a sweep is idempotent — after a (fault-free, hence
successful) sweep the surviving files have pairwise distinct digests, so
sweeping the survivors again succeeds, deletes no file and appends no
ActionRecord (the database is unchanged). -/
theorem sweep_idempotent (pick1 pick2 : Bool) (entries : List (String × List Nat)) (db : DB) :
    (deduplicateFiles noSweepErr pick1 entries db).res = .ok () ∧
    ((deduplicateFiles noSweepErr pick1 entries db).surv.Pairwise
      (fun a b => sha256hex a.2 ≠ sha256hex b.2)) ∧
    (deduplicateFiles noSweepErr pick2 (deduplicateFiles noSweepErr pick1 entries db).surv
        (deduplicateFiles noSweepErr pick1 entries db).db).res = .ok () ∧
    (deduplicateFiles noSweepErr pick2 (deduplicateFiles noSweepErr pick1 entries db).surv
        (deduplicateFiles noSweepErr pick1 entries db).db).surv
      = (deduplicateFiles noSweepErr pick1 entries db).surv ∧
    (deduplicateFiles noSweepErr pick2 (deduplicateFiles noSweepErr pick1 entries db).surv
        (deduplicateFiles noSweepErr pick1 entries db).db).db
      = (deduplicateFiles noSweepErr pick1 entries db).db := by
  simp only [deduplicateFiles_res, deduplicateFiles_surv, deduplicateFiles_db]
  rw [dedupGo_noSweepErr_ok entries [] db,
    dedupGo_noSweepErr_ok ((dedupGo noSweepErr [] db entries).surv) []
      ((dedupGo noSweepErr [] db entries).db)]
  refine ⟨rfl, (dedupGo_surv_distinct entries [] db).1, rfl, ?_, ?_⟩
  · exact (dedupGo_distinct_unchanged _ [] _
      (dedupGo_surv_distinct entries [] db).1 (by simp)).1
  · exact (dedupGo_distinct_unchanged _ [] _
      (dedupGo_surv_distinct entries [] db).1 (by simp)).2

/-! ## Claim C7 -/

/-- Oracle for the C7 scenarios: hashing fails on the path `d/b.txt`. -/
def failOnB : SweepOracle :=
  ⟨fun p => if p = "d/b.txt" then some "read failure" else none,
   fun _ => none, fun _ => none⟩

set_option maxRecDepth 100000 in
/-- Claim C7 counterexample: a concrete walk whose second file fails to
hash.  The walk itself ends in the error, but when the caller's `select`
takes the ready `done` case (the goroutine is blocked on `done <- true`
with the error already buffered in `errCh`), `deduplicateFiles` returns
success — the sweep does NOT return the first error encountered to the
caller. -/
theorem sweep_error_swallowed_counterexample :
    (dedupGo failOnB [] emptyDB [("d/a.txt", [1]), ("d/b.txt", [1])]).res
      = .error "read failure" ∧
    (deduplicateFiles failOnB true [("d/a.txt", [1]), ("d/b.txt", [1])] emptyDB).res
      = .ok () ∧
    ¬ ((deduplicateFiles failOnB true [("d/a.txt", [1]), ("d/b.txt", [1])] emptyDB).res
      = .error "read failure") := by
  refine ⟨rfl, rfl, fun h => ?_⟩
  rw [show (deduplicateFiles failOnB true [("d/a.txt", [1]), ("d/b.txt", [1])] emptyDB).res
      = Except.ok () from rfl] at h
  cases h

/-- Claim C7 (amended): a per-file error still aborts the remaining walk
at the first error — later files stay on disk untouched, the digest index
and the database stay as they were at the error (deletions and log
entries already made persist, and nothing later is appended), and these
on-disk and database effects are the same whichever way the select goes.
But the walk's error reaches the caller only through the `errCh`/`done`
select: the sweep call returns that first error when the select takes the
error channel, and success when it takes the `done` case whose sender
unblocks once the error sits buffered — so the first error may be
silently dropped.  A fault-free walk always returns success. -/
theorem sweep_first_error_or_swallowed (o : SweepOracle) (db : DB)
    (l1 l2 : List (String × List Nat)) (e : String)
    (herr : (dedupGo o [] db l1).res = .error e) :
    dedupGo o [] db (l1 ++ l2) =
      ⟨.error e, (dedupGo o [] db l1).surv ++ l2,
       (dedupGo o [] db l1).idx, (dedupGo o [] db l1).db⟩ ∧
    (deduplicateFiles o false (l1 ++ l2) db).res = .error e ∧
    (deduplicateFiles o true (l1 ++ l2) db).res = .ok () ∧
    (∀ pick, (deduplicateFiles o pick (l1 ++ l2) db).surv
        = (dedupGo o [] db l1).surv ++ l2 ∧
      (deduplicateFiles o pick (l1 ++ l2) db).db = (dedupGo o [] db l1).db) ∧
    (∀ pick, (deduplicateFiles noSweepErr pick (l1 ++ l2) db).res = .ok ()) := by
  have happ := dedupGo_append_err o l2 l1 [] db e herr
  refine ⟨happ, ?_, ?_, ?_, ?_⟩
  · rw [deduplicateFiles_res, happ]
    rfl
  · rw [deduplicateFiles_res, happ]
    rfl
  · intro pick
    constructor
    · rw [deduplicateFiles_surv, happ]
    · rw [deduplicateFiles_db, happ]
  · intro pick
    rw [deduplicateFiles_res, dedupGo_noSweepErr_ok]
    rfl

set_option maxRecDepth 100000 in
/-- Witness for the amended C7: the concrete failing walk under both
select resolutions, with the file after the failure point untouched. -/
theorem sweep_first_error_or_swallowed_witness :
    (dedupGo failOnB [] emptyDB [("d/a.txt", [1]), ("d/b.txt", [1])]).res
      = .error "read failure" ∧
    (deduplicateFiles failOnB false
        ([("d/a.txt", [1]), ("d/b.txt", [1])] ++ [("d/c.txt", [2])]) emptyDB).res
      = .error "read failure" ∧
    (deduplicateFiles failOnB true
        ([("d/a.txt", [1]), ("d/b.txt", [1])] ++ [("d/c.txt", [2])]) emptyDB).surv
      = (dedupGo failOnB [] emptyDB [("d/a.txt", [1]), ("d/b.txt", [1])]).surv
        ++ [("d/c.txt", [2])] :=
  ⟨rfl,
   (sweep_first_error_or_swallowed failOnB emptyDB [("d/a.txt", [1]), ("d/b.txt", [1])]
      [("d/c.txt", [2])] "read failure" rfl).2.1,
   ((sweep_first_error_or_swallowed failOnB emptyDB [("d/a.txt", [1]), ("d/b.txt", [1])]
      [("d/c.txt", [2])] "read failure" rfl).2.2.2.1 true).1⟩

/-! ## Claim C8 -/

/-- Claim C8: every successful store returns the storage key
`hex SHA-256 digest of the content` + `original extension of the source
path`, and a blob is present under exactly that entry name in the storage
root after the call (in both the fresh and the duplicate branch). -/
theorem store_key_is_digest_plus_ext (o : IOOracle) (p : String) (s : St)
    (content : List Nat) (key : String) (s' : St)
    (hres : storeFile o p s = (.ok key, s'))
    (h1 : s.fs.lookup p = some content) :
    key = sha256hex content ++ goExt p ∧
    (s'.fs.lookup (storageDir ++ "/" ++ key)).isSome = true := by
  cases hh : o.readFailsOnHash with
  | true =>
    rw [storeFile_hash_fail o p s content h1 hh] at hres
    cases hres
  | false =>
    rcases h2 : s.fs.lookup (storageDir ++ "/" ++ (sha256hex content ++ goExt p))
        with _ | blob
    · cases hc : o.createFails with
      | true =>
        rw [storeFile_create_fail o p s content h1 hh h2 hc] at hres
        cases hres
      | false =>
        cases hcp : o.copyFails with
        | true =>
          rw [storeFile_copy_fail o p s content h1 hh h2 hc hcp] at hres
          cases hres
        | false =>
          rw [storeFile_fresh o p s content h1 hh h2 hc hcp] at hres
          injection hres with hk hs
          injection hk with hk
          subst hk
          subst hs
          refine ⟨rfl, ?_⟩
          show (FS.lookup _ _).isSome = true
          unfold FS.lookup
          rw [List.find?_cons_of_pos _ (by simp)]
          rfl
    · rw [storeFile_dup o p s content blob h1 hh h2] at hres
      injection hres with hk hs
      injection hk with hk
      subst hk
      subst hs
      refine ⟨rfl, ?_⟩
      show ((ensureStorageDir s).fs.lookup _).isSome = true
      rw [ensure_lookup, h2]
      rfl

set_option maxRecDepth 100000 in
/-- Witness for C8 at the concrete state `st0`. -/
theorem store_key_is_digest_plus_ext_witness :
    st0.fs.lookup "a.txt" = some [7] ∧
    ((storeFile noFail "a.txt" st0).2.fs.lookup
        (storageDir ++ "/" ++ (sha256hex [7] ++ goExt "a.txt"))).isSome = true := by
  refine ⟨rfl, ?_⟩
  exact (store_key_is_digest_plus_ext noFail "a.txt" st0 [7]
    (sha256hex [7] ++ goExt "a.txt") (storeFile noFail "a.txt" st0).2 rfl rfl).2

/-! ## Claim C9 -/

/-- Claim C9: every ActionRecord and VersionRecord that a successful store
appends carries the base filename of the source path (final path
component, extension included) as its filename key — never the full path;
stores of equal base names from different directories therefore write
under one shared filename key. -/
theorem store_records_keyed_by_base (o : IOOracle) (p : String) (s : St)
    (key : String) (s' : St) (hres : storeFile o p s = (.ok key, s')) :
    (∀ a ∈ s'.db.actions, a ∈ s.db.actions ∨ a.filename = goBase p) ∧
    (∀ v ∈ s'.db.versions, v ∈ s.db.versions ∨ v.filename = goBase p) := by
  rcases h1 : s.fs.lookup p with _ | content
  · rw [storeFile_open_fail o p s h1] at hres
    cases hres
  · cases hh : o.readFailsOnHash with
    | true =>
      rw [storeFile_hash_fail o p s content h1 hh] at hres
      cases hres
    | false =>
      rcases h2 : s.fs.lookup (storageDir ++ "/" ++ (sha256hex content ++ goExt p))
          with _ | blob
      · cases hc : o.createFails with
        | true =>
          rw [storeFile_create_fail o p s content h1 hh h2 hc] at hres
          cases hres
        | false =>
          cases hcp : o.copyFails with
          | true =>
            rw [storeFile_copy_fail o p s content h1 hh h2 hc hcp] at hres
            cases hres
          | false =>
            rw [storeFile_fresh o p s content h1 hh h2 hc hcp] at hres
            injection hres with hk hs
            subst hs
            constructor
            · intro a ha
              simp only [logVersion, logVersionInsert, logAction] at ha
              rcases List.mem_append.mp ha with ha | ha
              · exact Or.inl ha
              · simp only [List.mem_singleton] at ha
                subst ha
                exact Or.inr rfl
            · intro v hv
              simp only [logVersion, logVersionInsert, logAction] at hv
              rcases List.mem_append.mp hv with hv | hv
              · exact Or.inl hv
              · simp only [List.mem_singleton] at hv
                subst hv
                exact Or.inr rfl
      · rw [storeFile_dup o p s content blob h1 hh h2] at hres
        injection hres with hk hs
        subst hs
        constructor
        · intro a ha
          simp only [logAction] at ha
          rcases List.mem_append.mp ha with ha | ha
          · exact Or.inl ha
          · simp only [List.mem_singleton] at ha
            subst ha
            exact Or.inr rfl
        · intro v hv
          exact Or.inl hv

set_option maxRecDepth 100000 in
/-- Witness for C9: storing `dir/a.txt` keys its records by `a.txt`. -/
theorem store_records_keyed_by_base_witness :
    goBase "dir/a.txt" = "a.txt" ∧
    (∀ a ∈ (storeFile noFail "dir/a.txt" st1).2.db.actions,
        a ∈ st1.db.actions ∨ a.filename = goBase "dir/a.txt") := by
  refine ⟨rfl, ?_⟩
  exact (store_records_keyed_by_base noFail "dir/a.txt" st1
    (sha256hex [7] ++ goExt "dir/a.txt") (storeFile noFail "dir/a.txt" st1).2 rfl).1

/-! ## Claim C10 -/

/-- Claim C10: when the source cannot be opened, or the read during digest
computation fails, `storeFile` returns an error with no blob written and
no record appended — but the storage root directory exists afterwards in
any case, because `storeFile` creates it before validating the source. -/
theorem store_early_failure_creates_root (o : IOOracle) (p : String) (s : St)
    (h : s.fs.lookup p = none ∨ o.readFailsOnHash = true) :
    (∃ e, storeFile o p s = (.error e, ensureStorageDir s)) ∧
    (ensureStorageDir s).db = s.db ∧
    (ensureStorageDir s).fs.files = s.fs.files ∧
    (ensureStorageDir s).fs.dirs.contains storageDir = true := by
  refine ⟨?_, ensure_db s, ensure_files s, ensure_contains s⟩
  rcases h with h | h
  · exact ⟨_, storeFile_open_fail o p s h⟩
  · rcases h1 : s.fs.lookup p with _ | content
    · exact ⟨_, storeFile_open_fail o p s h1⟩
    · exact ⟨_, storeFile_hash_fail o p s content h1 h⟩

/-- Witness for C10 at the concrete state `st0` with a missing source. -/
theorem store_early_failure_creates_root_witness :
    st0.fs.lookup "missing.txt" = none ∧
    (∃ e, storeFile noFail "missing.txt" st0 = (.error e, ensureStorageDir st0)) ∧
    (ensureStorageDir st0).fs.dirs.contains storageDir = true :=
  ⟨rfl,
   (store_early_failure_creates_root noFail "missing.txt" st0 (Or.inl rfl)).1,
   (store_early_failure_creates_root noFail "missing.txt" st0 (Or.inl rfl)).2.2.2⟩
